import Mathlib

/-!
Verification development for the WibblyWires wire-simulation core.

The embedding follows the source files
`Source/WibblyWires/Private/Verlet.h`,
`Source/WibblyWires/Private/WibblyConnectionDrawingPolicy.h` and
`Source/WibblyWires/Private/WibblyConnectionDrawingPolicy.cpp`.
Engine float math (`FVector2f` / `FVector2D`) is modelled over the real
numbers; 32-bit rounding is not modelled.  Engine globals read by the core
(`WireFriction`, `SecondsBeforeBreaking`, the `WibblyWires.*` console
variables) and the Slate clock (`FSlateApplication::Get().GetCurrentTime()`)
are passed to each operation as explicit parameters, as §6 of the design
document directs ("tunable numeric parameters ... are external configuration
values ... injectable inputs").
-/

/-- 2D vector, `FVector2f`/`FVector2D` of the engine, over ℝ. -/
@[ext]
structure Vec2 where
  x : ℝ
  y : ℝ

instance : Add Vec2 := ⟨fun a b => ⟨a.x + b.x, a.y + b.y⟩⟩

instance : Sub Vec2 := ⟨fun a b => ⟨a.x - b.x, a.y - b.y⟩⟩

instance : Neg Vec2 := ⟨fun a => ⟨-a.x, -a.y⟩⟩

/-- Scalar multiplication `Vector * float`. -/
instance : SMul ℝ Vec2 := ⟨fun s v => ⟨s * v.x, s * v.y⟩⟩

/-- FVector2D::ZeroVector. -/
instance : Zero Vec2 := ⟨⟨0, 0⟩⟩

@[simp] theorem Vec2.add_x (a b : Vec2) : (a + b).x = a.x + b.x := rfl

@[simp] theorem Vec2.add_y (a b : Vec2) : (a + b).y = a.y + b.y := rfl

@[simp] theorem Vec2.sub_x (a b : Vec2) : (a - b).x = a.x - b.x := rfl

@[simp] theorem Vec2.sub_y (a b : Vec2) : (a - b).y = a.y - b.y := rfl

@[simp] theorem Vec2.smul_x (s : ℝ) (v : Vec2) : (s • v).x = s * v.x := rfl

@[simp] theorem Vec2.smul_y (s : ℝ) (v : Vec2) : (s • v).y = s * v.y := rfl

@[simp] theorem Vec2.zero_x : (0 : Vec2).x = 0 := rfl

@[simp] theorem Vec2.zero_y : (0 : Vec2).y = 0 := rfl

/-- FVector2D::Size, the Euclidean norm `sqrt(X*X + Y*Y)`. -/
noncomputable def Vec2.size (v : Vec2) : ℝ :=
  Real.sqrt (v.x ^ 2 + v.y ^ 2)

/-- FVector2D::DistSquared. -/
def Vec2.distSquared (a b : Vec2) : ℝ :=
  (b.x - a.x) ^ 2 + (b.y - a.y) ^ 2

/-- FVector2D::Distance. -/
noncomputable def Vec2.distance (a b : Vec2) : ℝ :=
  (b - a).size

/-- Dot product, operator `|` of the engine vector types. -/
def Vec2.dot (a b : Vec2) : ℝ :=
  a.x * b.x + a.y * b.y

/-- FVector2D::GetSafeNormal with the default tolerance SMALL_NUMBER = 1e-8:
the zero vector when the squared length is within tolerance, otherwise the
vector scaled by the inverse length. -/
noncomputable def Vec2.getSafeNormal (v : Vec2) : Vec2 :=
  let SquareSum := v.x ^ 2 + v.y ^ 2
  if SquareSum < 1e-8 then 0 else (1 / Real.sqrt SquareSum) • v

/-- FMath::Lerp on floats: `A + Alpha * (B - A)`. -/
def FMath.Lerp (A B Alpha : ℝ) : ℝ := A + Alpha * (B - A)

/-- FMath::Lerp on 2D vectors. -/
def FMath.LerpV (A B : Vec2) (Alpha : ℝ) : Vec2 := A + Alpha • (B - A)

/-- FMath::Sign: 1 for positive, -1 for negative, 0 for zero. -/
noncomputable def FMath.Sign (A : ℝ) : ℝ :=
  if A > 0 then 1 else if A < 0 then -1 else 0

/-- FVerletPoint (Verlet.h lines 17-58): a mass point storing position,
previous position, accumulated acceleration and a pinned flag. -/
@[ext]
structure FVerletPoint where
  Position : Vec2
  LastPosition : Vec2
  Acceleration : Vec2
  bIsPinned : Bool

/-- FVerletPoint constructor (Verlet.h lines 24-30): an initial velocity is
encoded by offsetting LastPosition. -/
def FVerletPoint.create (InitialPosition : Vec2) (IsPinned : Bool)
    (InitialVelocity : Vec2) : FVerletPoint :=
  { Position := InitialPosition
    LastPosition := InitialPosition - InitialVelocity
    Acceleration := 0
    bIsPinned := IsPinned }

/-- FVerletPoint::CalculateVelocity: the implicit Verlet velocity
`Position - LastPosition`. -/
def FVerletPoint.CalculateVelocity (p : FVerletPoint) : Vec2 :=
  p.Position - p.LastPosition

/-- FVerletPoint::UpdatePosition (Verlet.h lines 37-47).  `WireFriction` is
the global console variable, passed in explicitly. -/
def FVerletPoint.UpdatePosition (WireFriction deltaTime : ℝ)
    (p : FVerletPoint) : FVerletPoint :=
  if p.bIsPinned then
    { p with Acceleration := 0 }
  else
    let Velocity := WireFriction • p.CalculateVelocity
    { p with
      LastPosition := p.Position
      Position := p.Position + Velocity + (deltaTime * deltaTime) • p.Acceleration
      Acceleration := 0 }

/-- FVerletPoint::Accelerate: accumulate an impulse. -/
def FVerletPoint.Accelerate (Impulse : Vec2) (p : FVerletPoint) : FVerletPoint :=
  { p with Acceleration := p.Acceleration + Impulse }

/-- FVerletPoint::AddVelocity (Verlet.h lines 54-57): `LastPosition -= Velocity`. -/
def FVerletPoint.AddVelocity (Velocity : Vec2) (p : FVerletPoint) : FVerletPoint :=
  { p with LastPosition := p.LastPosition - Velocity }

/-- FVerletStick (Verlet.h lines 60-73): a distance constraint between two
points of the owning chain, referenced by index. -/
structure FVerletStick where
  Point0Index : ℕ
  Point1Index : ℕ
  DesiredLength : ℝ

/-- FVerletStick::ConstrainLength (Verlet.h lines 75-99), acting on the two
endpoint values and returning their updated values.  The source mutates the
two points through references; the offset is computed before either position
is written, so the functional reading below is the same map. -/
noncomputable def FVerletStick.ConstrainLength (stick : FVerletStick)
    (Point0 Point1 : FVerletPoint) : FVerletPoint × FVerletPoint :=
  let Delta := Point1.Position - Point0.Position
  let CurrentLength := Delta.size
  let Difference := stick.DesiredLength - CurrentLength
  let HalfPercent := (Difference / CurrentLength) * 0.5
  let HalfOffset0 := HalfPercent • Delta
  -- If either is pinned, the other covers the full adjustment.
  let HalfOffset := if Point0.bIsPinned || Point1.bIsPinned then
    (2 : ℝ) • HalfOffset0 else HalfOffset0
  let NewPoint0 := if Point0.bIsPinned then Point0 else
    { Point0 with Position := Point0.Position - HalfOffset }
  let NewPoint1 := if Point1.bIsPinned then Point1 else
    { Point1 with Position := Point1.Position + HalfOffset }
  (NewPoint0, NewPoint1)

/-- Value the source divides by in FVerletStick::ConstrainLength (Verlet.h
line 80, `(Difference / CurrentLength)`): the current distance between the
two endpoints.  The source performs the division unconditionally. -/
noncomputable def FVerletStick.constrainCurrentLength
    (Point0 Point1 : FVerletPoint) : ℝ :=
  (Point1.Position - Point0.Position).size

/-- Spec-side formula of §4.2 for the half correction offset of a constraint:
`delta * ((restLength - currentLength) / currentLength) * 0.5`. -/
noncomputable def specHalfOffset (stick : FVerletStick) (p q : FVerletPoint) : Vec2 :=
  ((stick.DesiredLength - (q.Position - p.Position).size) /
      (q.Position - p.Position).size * 0.5) • (q.Position - p.Position)

/-- Claim C1 counterexample: AddVelocity is additive, not a setter.  A point
constructed at the origin with initial velocity (1,0), after AddVelocity (1,0)
and before any integration, has derived velocity (2,0), not (1,0). -/
theorem addVelocity_not_setVelocity_cex :
    ((FVerletPoint.create ⟨0, 0⟩ false ⟨1, 0⟩).AddVelocity ⟨1, 0⟩).CalculateVelocity ≠
      (⟨1, 0⟩ : Vec2) := by
  intro h
  have hx := congrArg Vec2.x h
  simp [FVerletPoint.create, FVerletPoint.AddVelocity,
    FVerletPoint.CalculateVelocity] at hx

/-- Claim C1 (amended): AddVelocity(v) leaves Position unchanged and subtracts
v from LastPosition, thereby adding v to the derived velocity
`Position - LastPosition`; the derived velocity equals v exactly when the
prior derived velocity was zero, in particular for a point freshly
constructed with zero initial velocity. -/
theorem addVelocity_adds_to_derived_velocity (p : FVerletPoint) (v : Vec2)
    (InitialPosition : Vec2) (IsPinned : Bool) :
    (p.AddVelocity v).Position = p.Position ∧
    (p.AddVelocity v).CalculateVelocity = p.CalculateVelocity + v ∧
    (p.CalculateVelocity = 0 → (p.AddVelocity v).CalculateVelocity = v) ∧
    ((FVerletPoint.create InitialPosition IsPinned 0).AddVelocity v).CalculateVelocity
      = v := by
  refine ⟨rfl, ?_, ?_, ?_⟩
  · ext <;>
      simp [FVerletPoint.AddVelocity, FVerletPoint.CalculateVelocity] <;> ring
  · intro h0
    have h1 : (p.AddVelocity v).CalculateVelocity = p.CalculateVelocity + v := by
      ext <;>
        simp [FVerletPoint.AddVelocity, FVerletPoint.CalculateVelocity] <;> ring
    rw [h1, h0]
    ext <;> simp
  · ext <;>
      simp [FVerletPoint.create, FVerletPoint.AddVelocity,
        FVerletPoint.CalculateVelocity]

/-- Failing input of claim C2: two free points both at the origin. -/
def coincidentPoint : FVerletPoint := ⟨⟨0, 0⟩, ⟨0, 0⟩, ⟨0, 0⟩, false⟩

/-- Stick joining points 0 and 1 with rest length 1, for the C2 failing input. -/
def unitStick : FVerletStick := ⟨0, 1, 1⟩

/-- Claim C2 (code bug): with coincident endpoints, the length the source
divides by in ConstrainLength is exactly 0, and no guard branch exists: the
division `Difference / CurrentLength` is evaluated with a zero denominator
(IEEE float arithmetic produces ±inf/NaN there; under Lean's `x / 0 = 0`
convention the embedded correction degenerates to no movement, which is what
the second conjunct records). -/
theorem constrainLength_zero_length_unguarded :
    FVerletStick.constrainCurrentLength coincidentPoint coincidentPoint = 0 ∧
    unitStick.ConstrainLength coincidentPoint coincidentPoint =
      (coincidentPoint, coincidentPoint) := by
  constructor
  · simp [FVerletStick.constrainCurrentLength, coincidentPoint, Vec2.size]
  · simp [FVerletStick.ConstrainLength, coincidentPoint, Vec2.size]
    constructor <;> ext <;> simp

/-- Claim C6: a pinned point's position is changed neither by integration
(UpdatePosition, whatever force was accumulated and whatever the delta time)
nor by constraint relaxation (ConstrainLength, whatever the constraint and
the partner point). -/
theorem pinned_position_invariant (WireFriction deltaTime : ℝ)
    (stick : FVerletStick) (p q : FVerletPoint) :
    (p.bIsPinned = true →
      (p.UpdatePosition WireFriction deltaTime).Position = p.Position) ∧
    (p.bIsPinned = true → ((stick.ConstrainLength p q).1).Position = p.Position) ∧
    (q.bIsPinned = true → ((stick.ConstrainLength p q).2).Position = q.Position) := by
  refine ⟨fun hp => ?_, fun hp => ?_, fun hq => ?_⟩
  · simp [FVerletPoint.UpdatePosition, hp]
  · simp [FVerletStick.ConstrainLength, hp]
  · by_cases hp : p.bIsPinned <;>
      simp [FVerletStick.ConstrainLength, hp, hq]

/-- Claim C7: with nonzero current length, ConstrainLength applies the half
offset `delta * ((restLength - currentLength) / currentLength) * 0.5`, doubled
when either endpoint is pinned; `-halfOffset` goes to the first point and
`+halfOffset` to the second, pinned endpoints are skipped, a free endpoint
paired with a pinned one absorbs the whole correction, and with both ends
free the position sum (hence the midpoint) is preserved. -/
theorem constrainLength_correction_formula (stick : FVerletStick)
    (p q : FVerletPoint)
    (hlen : (q.Position - p.Position).size ≠ 0) :
    (p.bIsPinned = false → q.bIsPinned = false →
      (stick.ConstrainLength p q).1.Position = p.Position - specHalfOffset stick p q ∧
      (stick.ConstrainLength p q).2.Position = q.Position + specHalfOffset stick p q ∧
      (stick.ConstrainLength p q).1.Position + (stick.ConstrainLength p q).2.Position =
        p.Position + q.Position) ∧
    (p.bIsPinned = true → q.bIsPinned = false →
      (stick.ConstrainLength p q).1.Position = p.Position ∧
      (stick.ConstrainLength p q).2.Position =
        q.Position + (2 : ℝ) • specHalfOffset stick p q) ∧
    (p.bIsPinned = false → q.bIsPinned = true →
      (stick.ConstrainLength p q).1.Position =
        p.Position - (2 : ℝ) • specHalfOffset stick p q ∧
      (stick.ConstrainLength p q).2.Position = q.Position) ∧
    (p.bIsPinned = true → q.bIsPinned = true →
      (stick.ConstrainLength p q).1 = p ∧ (stick.ConstrainLength p q).2 = q) := by
  refine ⟨fun hp hq => ⟨?_, ?_, ?_⟩, fun hp hq => ⟨?_, ?_⟩,
    fun hp hq => ⟨?_, ?_⟩, fun hp hq => ⟨?_, ?_⟩⟩ <;>
    simp [FVerletStick.ConstrainLength, specHalfOffset, hp, hq]
  ext <;> simp [FVerletStick.ConstrainLength, specHalfOffset, hp, hq]

/-- Free verlet point at the origin, a concrete input for claim C7. -/
def freePointA : FVerletPoint := ⟨⟨0, 0⟩, ⟨0, 0⟩, ⟨0, 0⟩, false⟩

/-- Free verlet point at (2,0), a concrete input for claim C7. -/
def freePointB : FVerletPoint := ⟨⟨2, 0⟩, ⟨2, 0⟩, ⟨0, 0⟩, false⟩

/-- Stick joining points 0 and 1 with rest length 5, a concrete input for C7. -/
def stickAB : FVerletStick := ⟨0, 1, 5⟩

/-- Witness for claim C7: the current length of the concrete configuration is
nonzero (sqrt 4), and the theorem applied there yields midpoint preservation. -/
theorem constrainLength_correction_formula_witness :
    (freePointB.Position - freePointA.Position).size ≠ 0 ∧
    (stickAB.ConstrainLength freePointA freePointB).1.Position +
      (stickAB.ConstrainLength freePointA freePointB).2.Position =
      freePointA.Position + freePointB.Position := by
  have hne : (freePointB.Position - freePointA.Position).size ≠ 0 := by
    simp only [freePointA, freePointB, Vec2.size, Vec2.sub_x, Vec2.sub_y]
    rw [Real.sqrt_ne_zero']
    norm_num
  exact ⟨hne,
    ((constrainLength_correction_formula stickAB freePointA freePointB hne).1
      rfl rfl).2.2⟩

/-- TArray::RemoveAllSwap of the engine container, as invoked at Verlet.h
line 288: scan from index `i`; an element matching the predicate is removed
by moving the last element into its slot and shrinking by one (RemoveAtSwap),
and the same index is rechecked; a non-matching element is skipped.  Survivor
order is therefore not preserved. -/
def removeAllSwapAux {α : Type} (p : α → Prop) [DecidablePred p]
    (l : List α) (i : ℕ) : List α :=
  if h : i < l.length then
    if p (l.get ⟨i, h⟩) then
      removeAllSwapAux p ((l.set i (l.get ⟨l.length - 1, by omega⟩)).dropLast) i
    else
      removeAllSwapAux p l (i + 1)
  else l
termination_by l.length - i
decreasing_by
  all_goals try simp only [List.length_dropLast, List.length_set]
  all_goals omega

/-- TArray::RemoveAllSwap, starting the scan at the front. -/
def removeAllSwap {α : Type} (p : α → Prop) [DecidablePred p]
    (l : List α) : List α :=
  removeAllSwapAux p l 0

theorem take_set_self {α : Type} (l : List α) (i : ℕ) (a : α) :
    (l.set i a).take i = l.take i := by
  apply List.ext_getElem
  · simp [List.length_take, List.length_set]
  · intro n h1 h2
    have hn : n < i := by
      simp only [List.length_take, List.length_set, lt_min_iff] at h1
      exact h1.1
    rw [List.getElem_take, List.getElem_take]
    exact List.getElem_set_ne (by omega) _

theorem removeAllSwapAux_perm {α : Type} (p : α → Prop) [DecidablePred p] :
    ∀ (n : ℕ) (l : List α) (i : ℕ), l.length - i ≤ n →
      (removeAllSwapAux p l i).Perm
        (l.take i ++ (l.drop i).filter (fun a => decide (¬ p a))) := by
  intro n
  induction n with
  | zero =>
    intro l i hn
    have hle : l.length ≤ i := by omega
    rw [removeAllSwapAux, dif_neg (by omega)]
    rw [List.take_of_length_le hle, List.drop_eq_nil_of_le hle]
    simp
  | succ n ih =>
    intro l i hn
    by_cases h : i < l.length
    · rw [removeAllSwapAux, dif_pos h]
      by_cases hp : p (l.get ⟨i, h⟩)
      · rw [if_pos hp]
        have hlast : l.length - 1 < l.length := by omega
        have hrec := ih ((l.set i (l.get ⟨l.length - 1, hlast⟩)).dropLast) i
          (by simp only [List.length_dropLast, List.length_set]; omega)
        refine hrec.trans ?_
        have htake : ((l.set i (l.get ⟨l.length - 1, hlast⟩)).dropLast).take i
            = l.take i := by
          rw [List.dropLast_eq_take, List.take_take, List.length_set]
          have hmin : i ⊓ (l.length - 1) = i := by omega
          rw [hmin, take_set_self]
        rw [htake]
        refine List.Perm.append_left _ ?_
        have hdropset : (l.set i (l.get ⟨l.length - 1, hlast⟩)).drop i
            = (l.get ⟨l.length - 1, hlast⟩) :: l.drop (i + 1) := by
          rw [List.drop_set, if_neg (by omega), Nat.sub_self]
          rw [List.drop_eq_getElem_cons h, List.set_cons_zero,
            List.get_eq_getElem]
        have hdrop2 : ((l.set i (l.get ⟨l.length - 1, hlast⟩)).dropLast).drop i
            = ((l.get ⟨l.length - 1, hlast⟩) :: l.drop (i + 1)).take
                (l.length - 1 - i) := by
          rw [List.dropLast_eq_take, List.drop_take, List.length_set, hdropset]
        by_cases hi : i = l.length - 1
        · have hd : l.drop (i + 1) = [] :=
            List.drop_eq_nil_of_le (by omega)
          rw [hdrop2, hd]
          have : l.length - 1 - i = 0 := by omega
          rw [this, List.take_zero]
          rw [List.drop_eq_getElem_cons h]
          rw [List.filter_cons]
          have hfi : (fun a => decide (¬ p a)) l[i] = false := by
            simp only [decide_not]
            simp [show p l[i] from List.get_eq_getElem l ⟨i, h⟩ ▸ hp]
          rw [if_neg (by simp [hfi]), hd]
        · have hd : l.drop (i + 1) ≠ [] := by
            intro hcon
            have := congrArg List.length hcon
            simp only [List.length_drop, List.length_nil] at this
            omega
          have hlen1 : l.length - 1 - i = (l.drop (i + 1)).length := by
            simp only [List.length_drop]
            omega
          rw [hdrop2, hlen1]
          have htk : ((l.get ⟨l.length - 1, hlast⟩) :: l.drop (i + 1)).take
              ((l.drop (i + 1)).length)
              = (l.get ⟨l.length - 1, hlast⟩) :: (l.drop (i + 1)).dropLast := by
            rw [List.take_cons]
            rw [List.dropLast_eq_take]
            omega
          rw [htk]
          have hlasteq : l.get ⟨l.length - 1, hlast⟩ = (l.drop (i + 1)).getLast hd := by
            rw [List.getLast_eq_getElem, List.getElem_drop, List.get_eq_getElem]
            congr 1
            simp only [List.length_drop]
            omega
          refine List.Perm.trans
            (List.Perm.filter _ ((List.perm_append_singleton _ _).symm)) ?_
          rw [hlasteq, List.dropLast_concat_getLast hd]
          rw [List.drop_eq_getElem_cons h, List.filter_cons]
          have hfi : (fun a => decide (¬ p a)) l[i] = false := by
            simp only [decide_not]
            simp [show p l[i] from List.get_eq_getElem l ⟨i, h⟩ ▸ hp]
          rw [if_neg (by simp [hfi])]
      · rw [if_neg hp]
        have hrec := ih l (i + 1) (by omega)
        refine hrec.trans ?_
        have h1 : l.take (i + 1) = l.take i ++ [l.get ⟨i, h⟩] := by
          rw [List.take_succ, List.getElem?_eq_getElem h]
          simp
        have h2 : (l.drop i).filter (fun a => decide (¬ p a))
            = l.get ⟨i, h⟩ :: (l.drop (i + 1)).filter (fun a => decide (¬ p a)) := by
          rw [List.drop_eq_getElem_cons h, List.filter_cons]
          rw [if_pos]
          · rw [List.get_eq_getElem]
          · simp only [decide_not]
            simp [show ¬ p l[i] from fun hc =>
              hp (List.get_eq_getElem l ⟨i, h⟩ ▸ hc)]
        rw [h1, h2, List.append_assoc, List.singleton_append]
    · rw [removeAllSwapAux, dif_neg h]
      push_neg at h
      rw [List.take_of_length_le h, List.drop_eq_nil_of_le h]
      simp

theorem removeAllSwap_perm {α : Type} (p : α → Prop) [DecidablePred p]
    (l : List α) :
    (removeAllSwap p l).Perm (l.filter (fun a => decide (¬ p a))) := by
  have h := removeAllSwapAux_perm p l.length l 0 (by omega)
  simpa [removeAllSwap] using h

/-- FBox2D / FBox2f of the engine.  `FBoxType Bounds(ForceInitToZero)` starts
as the zero box with bIsValid false; operator += either initialises both
corners to the point or expands them. -/
structure FBox2 where
  Min : Vec2
  Max : Vec2
  bIsValid : Bool

/-- Engine FBox2D::operator+= with a point. -/
noncomputable def FBox2.addPoint (B : FBox2) (P : Vec2) : FBox2 :=
  if B.bIsValid then
    { Min := ⟨min B.Min.x P.x, min B.Min.y P.y⟩
      Max := ⟨max B.Max.x P.x, max B.Max.y P.y⟩
      bIsValid := true }
  else
    { Min := P, Max := P, bIsValid := true }

/-- FVerletChain (Verlet.h lines 102-267).  The presentation attributes
LineColor and LineThickness are carried through untouched by the simulation
and are omitted here; CreationTime is the Slate timestamp recorded by the
constructor, and the current Slate time is passed to each operation as
`Now`. -/
structure FVerletChain where
  Gravity : Vec2
  Points : List FVerletPoint
  Sticks : List FVerletStick
  bHasFullyShrunk : Bool
  CreationTime : ℝ
  bHasBroken : Bool

/-- FVerletChain::SetAllPinned. -/
def FVerletChain.SetAllPinned (c : FVerletChain) (bIsPinned : Bool) : FVerletChain :=
  { c with Points := c.Points.map (fun P => { P with bIsPinned := bIsPinned }) }

/-- FVerletChain::UnpinAll. -/
def FVerletChain.UnpinAll (c : FVerletChain) : FVerletChain :=
  c.SetAllPinned false

/-- FVerletChain::GetSecondsSinceCreated. -/
def FVerletChain.GetSecondsSinceCreated (Now : ℝ) (c : FVerletChain) : ℝ :=
  Now - c.CreationTime

/-- FVerletChain::ApplyGravity: accelerate every point by the chain gravity. -/
def FVerletChain.ApplyGravity (c : FVerletChain) : FVerletChain :=
  { c with Points := c.Points.map (FVerletPoint.Accelerate c.Gravity) }

/-- FVerletChain::UpdatePositions: integrate every point. -/
def FVerletChain.UpdatePositions (WireFriction DeltaTime : ℝ)
    (c : FVerletChain) : FVerletChain :=
  { c with Points := c.Points.map (FVerletPoint.UpdatePosition WireFriction DeltaTime) }

/-- Body of the loop in FVerletChain::ApplyConstraints (Verlet.h lines
249-252): constrain one stick against the point array, writing both endpoint
values back at their indices.  An out-of-range index (impossible for chains
built through AddToChain) leaves the array unchanged; the C++ would index out
of bounds there. -/
noncomputable def constrainStickAt (Points : List FVerletPoint)
    (Stick : FVerletStick) : List FVerletPoint :=
  match Points[Stick.Point0Index]?, Points[Stick.Point1Index]? with
  | some P0, some P1 =>
    let r := Stick.ConstrainLength P0 P1
    (Points.set Stick.Point0Index r.1).set Stick.Point1Index r.2
  | _, _ => Points

/-- FVerletChain::ApplyConstraints: satisfy every stick in order. -/
noncomputable def FVerletChain.ApplyConstraints (c : FVerletChain) : FVerletChain :=
  { c with Points := c.Sticks.foldl constrainStickAt c.Points }

/-- FVerletChain::ApplyCollisions: nothing for now. -/
def FVerletChain.ApplyCollisions (c : FVerletChain) : FVerletChain :=
  c

/-- One substep of FVerletChain::Update (Verlet.h lines 187-198): gravity,
integration, then 5 passes of constraint satisfaction followed by the no-op
collision step. -/
noncomputable def FVerletChain.Substep (WireFriction SubDeltaTime : ℝ)
    (c : FVerletChain) : FVerletChain :=
  (fun ch => ch.ApplyConstraints.ApplyCollisions)^[5]
    ((c.ApplyGravity).UpdatePositions WireFriction SubDeltaTime)

/-- FVerletChain::Update (Verlet.h lines 173-199): clamp the delta time at
1/30 s, break the chain (unpin every point, latch bHasBroken) once its age
exceeds SecondsBeforeBreaking, then run 10 substeps of a tenth of the
clamped delta time each. -/
noncomputable def FVerletChain.Update
    (WireFriction SecondsBeforeBreaking Now DeltaTime0 : ℝ)
    (c : FVerletChain) : FVerletChain :=
  let MaxDeltaTime : ℝ := 1 / 30
  let DeltaTime := min MaxDeltaTime DeltaTime0
  let c1 := if c.GetSecondsSinceCreated Now > SecondsBeforeBreaking ∧
      c.bHasBroken = false then
      { c.SetAllPinned false with bHasBroken := true }
    else c
  -- Substeps = 10; SubDeltaTime = DeltaTime / Substeps
  let SubDeltaTime := DeltaTime / 10
  (FVerletChain.Substep WireFriction SubDeltaTime)^[10] c1

/-- FVerletChain::CalcBounds: fold every point position into a force-init
zero box. -/
noncomputable def FVerletChain.CalcBounds (c : FVerletChain) : FBox2 :=
  c.Points.foldl (fun B P => B.addPoint P.Position) ⟨⟨0, 0⟩, ⟨0, 0⟩, false⟩

/-- FVerletState (Verlet.h lines 269-344): the set of live chains. -/
structure FVerletState where
  VerletChains : List FVerletChain

/-- Removal predicate of FVerletState::UpdateVerletChains (Verlet.h lines
288-302), written as the source's early-return lambda reads: older than 30 s,
or bounds beyond the fixed margins. -/
noncomputable def chainShouldBeRemoved (Now : ℝ) (Chain : FVerletChain) : Prop :=
  Chain.GetSecondsSinceCreated Now > 30 ∨
    (Chain.CalcBounds).Min.y > 2000 ∨ (Chain.CalcBounds).Max.y < -1000 ∨
    (Chain.CalcBounds).Min.x > 3000 ∨ (Chain.CalcBounds).Max.x < -1000

noncomputable instance (Now : ℝ) : DecidablePred (chainShouldBeRemoved Now) :=
  fun Chain => by unfold chainShouldBeRemoved; infer_instance

/-- FVerletState::UpdateVerletChains (Verlet.h lines 280-303): update every
chain, then RemoveAllSwap the chains matching the removal predicate. -/
noncomputable def FVerletState.UpdateVerletChains
    (WireFriction SecondsBeforeBreaking Now DeltaTime : ℝ)
    (s : FVerletState) : FVerletState :=
  { VerletChains := removeAllSwap (chainShouldBeRemoved Now)
      (s.VerletChains.map
        (FVerletChain.Update WireFriction SecondsBeforeBreaking Now DeltaTime)) }

theorem updatePosition_bIsPinned (WireFriction deltaTime : ℝ) (p : FVerletPoint) :
    (p.UpdatePosition WireFriction deltaTime).bIsPinned = p.bIsPinned := by
  unfold FVerletPoint.UpdatePosition
  split <;> rfl

theorem constrainLength_fst_bIsPinned (stick : FVerletStick) (p q : FVerletPoint) :
    ((stick.ConstrainLength p q).1).bIsPinned = p.bIsPinned := by
  unfold FVerletStick.ConstrainLength
  dsimp only
  split <;> rfl

theorem constrainLength_snd_bIsPinned (stick : FVerletStick) (p q : FVerletPoint) :
    ((stick.ConstrainLength p q).2).bIsPinned = q.bIsPinned := by
  unfold FVerletStick.ConstrainLength
  dsimp only
  split <;> rfl

theorem constrainStickAt_unpinned (Points : List FVerletPoint)
    (Stick : FVerletStick) (hall : ∀ P ∈ Points, P.bIsPinned = false) :
    ∀ P ∈ constrainStickAt Points Stick, P.bIsPinned = false := by
  intro P hP
  unfold constrainStickAt at hP
  split at hP
  · rename_i P0 P1 h0 h1
    rcases List.mem_or_eq_of_mem_set hP with hP1 | rfl
    · rcases List.mem_or_eq_of_mem_set hP1 with hP2 | rfl
      · exact hall _ hP2
      · rw [constrainLength_fst_bIsPinned]
        exact hall _ (List.getElem?_mem h0)
    · rw [constrainLength_snd_bIsPinned]
      exact hall _ (List.getElem?_mem h1)
  · exact hall _ hP

theorem foldl_constrain_unpinned (Sticks : List FVerletStick) :
    ∀ Points : List FVerletPoint, (∀ P ∈ Points, P.bIsPinned = false) →
      ∀ P ∈ Sticks.foldl constrainStickAt Points, P.bIsPinned = false := by
  induction Sticks with
  | nil => intro Points h P hP; exact h P hP
  | cons s ss ih =>
    intro Points h
    exact ih _ (constrainStickAt_unpinned Points s h)

/-- Every point of a chain is unpinned. -/
def FVerletChain.AllUnpinned (c : FVerletChain) : Prop :=
  ∀ P ∈ c.Points, P.bIsPinned = false

theorem applyGravity_allUnpinned (c : FVerletChain) (h : c.AllUnpinned) :
    c.ApplyGravity.AllUnpinned := by
  intro P hP
  rcases List.mem_map.1 hP with ⟨Q, hQ, rfl⟩
  exact h Q hQ

theorem updatePositions_allUnpinned (WireFriction DeltaTime : ℝ)
    (c : FVerletChain) (h : c.AllUnpinned) :
    (c.UpdatePositions WireFriction DeltaTime).AllUnpinned := by
  intro P hP
  rcases List.mem_map.1 hP with ⟨Q, hQ, rfl⟩
  rw [updatePosition_bIsPinned]
  exact h _ hQ

theorem applyConstraints_allUnpinned (c : FVerletChain) (h : c.AllUnpinned) :
    c.ApplyConstraints.AllUnpinned :=
  foldl_constrain_unpinned c.Sticks c.Points h

theorem iterate_pass_allUnpinned (n : ℕ) :
    ∀ c : FVerletChain, c.AllUnpinned →
      ((fun ch : FVerletChain => ch.ApplyConstraints.ApplyCollisions)^[n] c).AllUnpinned := by
  induction n with
  | zero => intro c h; exact h
  | succ n ih =>
    intro c h
    rw [Function.iterate_succ_apply]
    exact ih _ (applyConstraints_allUnpinned c h)

theorem substep_allUnpinned (WireFriction SubDeltaTime : ℝ) (c : FVerletChain)
    (h : c.AllUnpinned) :
    (c.Substep WireFriction SubDeltaTime).AllUnpinned :=
  iterate_pass_allUnpinned 5 _
    (updatePositions_allUnpinned _ _ _ (applyGravity_allUnpinned c h))

theorem iterate_substep_allUnpinned (WireFriction SubDeltaTime : ℝ) (n : ℕ) :
    ∀ c : FVerletChain, c.AllUnpinned →
      ((FVerletChain.Substep WireFriction SubDeltaTime)^[n] c).AllUnpinned := by
  induction n with
  | zero => intro c h; exact h
  | succ n ih =>
    intro c h
    rw [Function.iterate_succ_apply]
    exact ih _ (substep_allUnpinned _ _ c h)

theorem iterate_pass_bHasBroken (n : ℕ) :
    ∀ c : FVerletChain,
      ((fun ch : FVerletChain => ch.ApplyConstraints.ApplyCollisions)^[n] c).bHasBroken
        = c.bHasBroken := by
  induction n with
  | zero => intro c; rfl
  | succ n ih =>
    intro c
    rw [Function.iterate_succ_apply, ih]
    rfl

theorem substep_bHasBroken (WireFriction SubDeltaTime : ℝ) (c : FVerletChain) :
    (c.Substep WireFriction SubDeltaTime).bHasBroken = c.bHasBroken := by
  unfold FVerletChain.Substep
  rw [iterate_pass_bHasBroken]
  rfl

theorem iterate_substep_bHasBroken (WireFriction SubDeltaTime : ℝ) (n : ℕ) :
    ∀ c : FVerletChain,
      ((FVerletChain.Substep WireFriction SubDeltaTime)^[n] c).bHasBroken
        = c.bHasBroken := by
  induction n with
  | zero => intro c; rfl
  | succ n ih =>
    intro c
    rw [Function.iterate_succ_apply, ih, substep_bHasBroken]

/-- Claim C8: FVerletChain::Update first clamps the delta time at 1/30 s;
if the chain age exceeds SecondsBeforeBreaking while bHasBroken is still
false it unpins every point and latches bHasBroken = true; it then performs
exactly 10 substeps of a tenth of the clamped delta time each, every substep
applying gravity to every point, integrating every point, and running 5
passes of constraint satisfaction followed by the no-op collision step; and
bHasBroken never reverts to false. -/
theorem chain_update_structure
    (WireFriction SecondsBeforeBreaking Now DeltaTime : ℝ) (c : FVerletChain) :
    (FVerletChain.Update WireFriction SecondsBeforeBreaking Now DeltaTime c =
      (FVerletChain.Substep WireFriction (min (1 / 30) DeltaTime / 10))^[10]
        (if c.GetSecondsSinceCreated Now > SecondsBeforeBreaking ∧
            c.bHasBroken = false then
          { c.SetAllPinned false with bHasBroken := true } else c)) ∧
    (1 / 30 ≤ DeltaTime →
      FVerletChain.Update WireFriction SecondsBeforeBreaking Now DeltaTime c =
        FVerletChain.Update WireFriction SecondsBeforeBreaking Now (1 / 30) c) ∧
    (c.GetSecondsSinceCreated Now > SecondsBeforeBreaking ∧ c.bHasBroken = false →
      (FVerletChain.Update WireFriction SecondsBeforeBreaking Now DeltaTime c).bHasBroken
          = true ∧
      (FVerletChain.Update WireFriction SecondsBeforeBreaking Now DeltaTime c).AllUnpinned) ∧
    (c.bHasBroken = true →
      (FVerletChain.Update WireFriction SecondsBeforeBreaking Now DeltaTime c).bHasBroken
        = true) := by
  have hform : FVerletChain.Update WireFriction SecondsBeforeBreaking Now DeltaTime c =
      (FVerletChain.Substep WireFriction (min (1 / 30) DeltaTime / 10))^[10]
        (if c.GetSecondsSinceCreated Now > SecondsBeforeBreaking ∧
            c.bHasBroken = false then
          { c.SetAllPinned false with bHasBroken := true } else c) := rfl
  refine ⟨hform, ?_, ?_, ?_⟩
  · intro hdt
    simp only [FVerletChain.Update, min_eq_left hdt, min_self]
  · intro hbr
    rw [hform, if_pos hbr]
    constructor
    · rw [iterate_substep_bHasBroken]
    · apply iterate_substep_allUnpinned
      intro P hP
      rcases List.mem_map.1 hP with ⟨Q, hQ, rfl⟩
      rfl
  · intro hbr
    rw [hform, iterate_substep_bHasBroken, if_neg (by simp [hbr])]
    exact hbr

/-- Claim C5: FVerletState::UpdateVerletChains updates every chain first and
then removes, by swap removal, exactly the chains whose age exceeds 30 s or
whose bounding box satisfies min-Y > 2000, max-Y < -1000, min-X > 3000 or
max-X < -1000: the survivors are exactly the non-matching updated chains up
to a permutation, and the final conjunct shows on a concrete list that swap
removal does not preserve the order of the survivors. -/
theorem updateVerletChains_eviction
    (WireFriction SecondsBeforeBreaking Now DeltaTime : ℝ) (s : FVerletState) :
    ((s.UpdateVerletChains WireFriction SecondsBeforeBreaking Now DeltaTime).VerletChains).Perm
      ((s.VerletChains.map
          (FVerletChain.Update WireFriction SecondsBeforeBreaking Now DeltaTime)).filter
        (fun Chain => decide (¬ chainShouldBeRemoved Now Chain))) ∧
    (∀ Chain : FVerletChain, chainShouldBeRemoved Now Chain ↔
      (Now - Chain.CreationTime > 30 ∨ Chain.CalcBounds.Min.y > 2000 ∨
        Chain.CalcBounds.Max.y < -1000 ∨ Chain.CalcBounds.Min.x > 3000 ∨
        Chain.CalcBounds.Max.x < -1000)) ∧
    removeAllSwap (fun n : ℕ => n = 0) [0, 1, 2] = [2, 1] := by
  refine ⟨removeAllSwap_perm _ _, fun Chain => Iff.rfl, ?_⟩
  rw [removeAllSwap]
  rw [removeAllSwapAux]
  norm_num
  rw [removeAllSwapAux]
  norm_num
  rw [removeAllSwapAux]
  norm_num
  rw [removeAllSwapAux]
  norm_num

/-- FLinearColor: presentation color, carried through untouched. -/
structure FLinearColor where
  R : ℝ
  G : ℝ
  B : ℝ
  A : ℝ

/-- State of the engine FRK4SpringInterpolator<FVector> as the wire code uses
it: the tracked position and velocity, plus the spring constants given to
SetSpringConstants at construction.  The interpolator is engine code outside
this repository, so its Runge-Kutta Update step is passed in abstractly as a
`springStep` function where needed and theorems hold for every integrator.
The wire code embeds its 2D points into the interpolator's 3D vectors with
z = 0; the z component is dropped here. -/
structure RK4SpringState where
  Position : Vec2
  Velocity : Vec2
  Stiffness : ℝ
  Dampening : ℝ

/-- FWireState (WibblyConnectionDrawingPolicy.h lines 60-78). -/
structure FWireState where
  DesiredRopeLength : ℝ
  LerpedRopeLength : ℝ
  DesiredRopeCenterPoint : Vec2
  SpringCenterPoint : RK4SpringState
  DesiredSlackMultiplier : ℝ
  LastStartPoint : Vec2
  LastEndPoint : Vec2
  Color : FLinearColor

/-- FWireState::CalculateDesiredCenterPoint (cpp lines 93-110): swap the
endpoints into left-to-right order, safe-normalise the delta, dot it with up
(0,1), square the dot preserving its sign (FMath::Pow(|d|, 2.f) is modelled
as the exact square), remap from [-1,1] to [0,1], and lerp the endpoints by
that factor.  The CenterX the source computes and discards (line 106) is
elided. -/
noncomputable def FWireState.CalculateDesiredCenterPoint
    (StartPoint0 EndPoint0 : Vec2) : Vec2 :=
  let SE := if StartPoint0.x > EndPoint0.x then (EndPoint0, StartPoint0)
    else (StartPoint0, EndPoint0)
  let StartPoint := SE.1
  let EndPoint := SE.2
  let Delta := EndPoint - StartPoint
  let Direction := Delta.getSafeNormal
  let UpDirection : Vec2 := ⟨0, 1⟩
  let DotWithUp := Direction.dot UpDirection
  let DotWithUp2 := |DotWithUp| ^ 2 * FMath.Sign DotWithUp
  let NormalizedDotWithUp := DotWithUp2 * 0.5 + 0.5
  FMath.LerpV StartPoint EndPoint NormalizedDotWithUp

/-- FWireState::CalculateDesiredCenterPointWithRopeLengthDelta (cpp lines
86-91); RopeLengthHangMultiplier is the WibblyWires.WireLength console
variable. -/
noncomputable def FWireState.CalculateDesiredCenterPointWithRopeLengthDelta
    (RopeLengthHangMultiplier : ℝ) (StartPoint EndPoint : Vec2)
    (RopeLengthDelta : ℝ) : Vec2 :=
  let Center := FWireState.CalculateDesiredCenterPoint StartPoint EndPoint
  ⟨Center.x, Center.y + RopeLengthDelta * RopeLengthHangMultiplier⟩

/-- FWireState::CalculateDesiredRopeLength (cpp lines 112-117). -/
noncomputable def FWireState.CalculateDesiredRopeLength (s : FWireState)
    (StartPoint EndPoint : Vec2) : ℝ :=
  (EndPoint - StartPoint).size * s.DesiredSlackMultiplier

/-- FWireState constructor (cpp lines 69-84).  SetSpringConstants of the
engine interpolator is modelled as storing the constants; Reset snaps the
tracked position with zero velocity.  Color is not set by the constructor
(the caller assigns it afterwards); it starts as the FLinearColor default
(0,0,0,0). -/
noncomputable def FWireState.create (RopeLengthHangMultiplier : ℝ)
    (StartPoint EndPoint : Vec2)
    (SpringStiffness SpringDampening InDesiredSlackMultiplier : ℝ) : FWireState :=
  let DesiredRopeLength := (EndPoint - StartPoint).size * InDesiredSlackMultiplier
  -- Start off a little off from desired so there is an initial bounce
  let LerpedRopeLength := DesiredRopeLength * 1.1
  let LengthDelta := LerpedRopeLength - (EndPoint - StartPoint).size
  let DesiredRopeCenterPoint :=
    FWireState.CalculateDesiredCenterPointWithRopeLengthDelta
      RopeLengthHangMultiplier StartPoint EndPoint LengthDelta
  { DesiredRopeLength := DesiredRopeLength
    LerpedRopeLength := LerpedRopeLength
    DesiredRopeCenterPoint := DesiredRopeCenterPoint
    SpringCenterPoint :=
      { Position := DesiredRopeCenterPoint
        Velocity := 0
        Stiffness := SpringStiffness
        Dampening := SpringDampening }
    DesiredSlackMultiplier := InDesiredSlackMultiplier
    LastStartPoint := StartPoint
    LastEndPoint := EndPoint
    Color := ⟨0, 0, 0, 0⟩ }

/-- FWireState::Update (cpp lines 119-151).  `springStep` abstracts the
engine interpolator's Update (state, target, delta time to new state);
`BounceWires` and `RopeLengthHangMultiplier` are the console variables.
Returns the updated wire state paired with the lerped center point the
source returns. -/
noncomputable def FWireState.Update
    (springStep : RK4SpringState → Vec2 → ℝ → RK4SpringState)
    (BounceWires : Bool) (RopeLengthHangMultiplier : ℝ)
    (s0 : FWireState) (StartPoint0 EndPoint0 : Vec2) (DeltaTime : ℝ) :
    FWireState × Vec2 :=
  let s := { s0 with LastStartPoint := StartPoint0, LastEndPoint := EndPoint0 }
  -- Ensure start point is always the left-most point
  let SE := if StartPoint0.x > EndPoint0.x then (EndPoint0, StartPoint0)
    else (StartPoint0, EndPoint0)
  let StartPoint := SE.1
  let EndPoint := SE.2
  let Delta := EndPoint - StartPoint
  let TightRopeLength := Delta.size
  let DesiredRopeLength := TightRopeLength * s.DesiredSlackMultiplier
  let LerpedRopeLength := max TightRopeLength
    (FMath.Lerp s.LerpedRopeLength DesiredRopeLength (DeltaTime * 20))
  let LengthDelta := LerpedRopeLength - TightRopeLength
  let DesiredRopeCenterPoint :=
    FWireState.CalculateDesiredCenterPointWithRopeLengthDelta
      RopeLengthHangMultiplier StartPoint EndPoint LengthDelta
  let Stepped := springStep s.SpringCenterPoint DesiredRopeCenterPoint DeltaTime
  let LerpedCenterPoint := Stepped.Position
  let Velocity := Stepped.Velocity
  let Spring := if BounceWires = true ∧
      LerpedCenterPoint.y > DesiredRopeCenterPoint.y ∧ Velocity.y > 0.1 then
    { Stepped with Velocity := ⟨Velocity.x, |Velocity.y| * (-0.9)⟩ }
  else Stepped
  ({ s with
      DesiredRopeLength := DesiredRopeLength
      LerpedRopeLength := LerpedRopeLength
      DesiredRopeCenterPoint := DesiredRopeCenterPoint
      SpringCenterPoint := Spring },
    LerpedCenterPoint)

theorem Vec2.size_sub_comm (a b : Vec2) : (a - b).size = (b - a).size := by
  unfold Vec2.size
  simp only [Vec2.sub_x, Vec2.sub_y]
  ring_nf

/-- Claim C3: the LerpedRopeLength value stored by FWireState::Update is
never below the straight-line distance between the endpoints passed to that
call, whatever the previous state, the spring integrator, the console
variables and the nonnegative delta time. -/
theorem update_lerpedRopeLength_floor
    (springStep : RK4SpringState → Vec2 → ℝ → RK4SpringState)
    (BounceWires : Bool) (RopeLengthHangMultiplier : ℝ)
    (s : FWireState) (StartPoint EndPoint : Vec2) (DeltaTime : ℝ)
    (hdt : 0 ≤ DeltaTime) :
    (EndPoint - StartPoint).size ≤
      ((FWireState.Update springStep BounceWires RopeLengthHangMultiplier
          s StartPoint EndPoint DeltaTime).1).LerpedRopeLength := by
  by_cases hswap : StartPoint.x > EndPoint.x
  · calc (EndPoint - StartPoint).size
        = (StartPoint - EndPoint).size := Vec2.size_sub_comm _ _
      _ ≤ _ := by
          simp only [FWireState.Update, if_pos hswap]
          exact le_max_left _ _
  · simp only [FWireState.Update, if_neg hswap]
    exact le_max_left _ _

/-- Wire state with slack multiplier 1 and lerped length 1, a concrete input
for claims C3 and C9. -/
def unitSlackWireState : FWireState :=
  { DesiredRopeLength := 1
    LerpedRopeLength := 1
    DesiredRopeCenterPoint := ⟨0, 0⟩
    SpringCenterPoint := ⟨⟨0, 0⟩, ⟨0, 0⟩, 0, 0⟩
    DesiredSlackMultiplier := 1
    LastStartPoint := ⟨0, 0⟩
    LastEndPoint := ⟨0, 0⟩
    Color := ⟨0, 0, 0, 0⟩ }

/-- Witness for claim C3 at a concrete call: identity spring step, endpoints
(0,0) and (1,0), delta time 0. -/
theorem update_lerpedRopeLength_floor_witness :
    (0 : ℝ) ≤ 0 ∧
    ((⟨1, 0⟩ : Vec2) - (⟨0, 0⟩ : Vec2)).size ≤
      ((FWireState.Update (fun st _ _ => st) false 1 unitSlackWireState
          ⟨0, 0⟩ ⟨1, 0⟩ 0).1).LerpedRopeLength :=
  ⟨le_refl 0,
    update_lerpedRopeLength_floor (fun st _ _ => st) false 1 unitSlackWireState
      ⟨0, 0⟩ ⟨1, 0⟩ 0 (le_refl 0)⟩

/-- Claim C9: with bounce mode enabled, when the spring-stepped tracked point
has overshot past the target (its Y exceeds the target center's Y) while its
Y velocity exceeds 0.1, FWireState::Update stores the stepped spring state
with its Y velocity replaced by -0.9 times its absolute value (position and X
velocity unchanged); otherwise the bounce logic leaves the stepped state
unchanged.  The final conjunct instantiates this at a stepped Y velocity of
0.5, giving -0.45. -/
theorem update_bounce_reflects_velocity
    (springStep : RK4SpringState → Vec2 → ℝ → RK4SpringState)
    (RopeLengthHangMultiplier : ℝ) (s : FWireState)
    (StartPoint EndPoint : Vec2) (DeltaTime : ℝ) :
    (let u := FWireState.Update springStep true RopeLengthHangMultiplier s
        StartPoint EndPoint DeltaTime
     let Stepped := springStep s.SpringCenterPoint u.1.DesiredRopeCenterPoint DeltaTime
     (Stepped.Position.y > u.1.DesiredRopeCenterPoint.y ∧ Stepped.Velocity.y > 0.1 →
       u.1.SpringCenterPoint =
         { Stepped with Velocity := ⟨Stepped.Velocity.x, |Stepped.Velocity.y| * (-0.9)⟩ }) ∧
     (¬ (Stepped.Position.y > u.1.DesiredRopeCenterPoint.y ∧ Stepped.Velocity.y > 0.1) →
       u.1.SpringCenterPoint = Stepped)) ∧
    ((FWireState.Update (fun _ _ _ => ⟨⟨0.5, 1⟩, ⟨0, 0.5⟩, 0, 0⟩) true 1
        unitSlackWireState ⟨0, 0⟩ ⟨1, 0⟩ 0).1).SpringCenterPoint.Velocity.y
      = -0.45 := by
  constructor
  · dsimp only
    constructor
    · intro hc
      simp only [FWireState.Update]
      rw [if_pos ⟨trivial, hc.1, hc.2⟩]
    · intro hc
      simp only [FWireState.Update]
      rw [if_neg]
      intro hcon
      exact hc ⟨hcon.2.1, hcon.2.2⟩
  · norm_num [FWireState.Update, FWireState.CalculateDesiredCenterPointWithRopeLengthDelta,
      FWireState.CalculateDesiredCenterPoint, Vec2.getSafeNormal, Vec2.size, Vec2.dot,
      FMath.Lerp, FMath.LerpV, FMath.Sign, unitSlackWireState, Real.sqrt_one]
    rw [abs_of_nonneg (by norm_num : (0:ℝ) ≤ 1 / 2)]
    norm_num

/-- FWireId (WibblyConnectionDrawingPolicy.h lines 12-58): the pair of raw
endpoint pin pointers, a null pointer being `none` (pins themselves are
opaque and numbered).  The pin handles and the cached hash do not enter
equality and are omitted. -/
structure FWireId where
  StartPin : Option ℕ
  EndPin : Option ℕ

/-- FWireId::operator== (header lines 25-28): both pins equal. -/
def FWireId.opEq (a b : FWireId) : Bool :=
  decide (a.StartPin = b.StartPin) && decide (a.EndPin = b.EndPin)

/-- FWireId::operator!= (header lines 30-33): both pins different. -/
def FWireId.opNe (a b : FWireId) : Bool :=
  decide (a.StartPin ≠ b.StartPin) && decide (a.EndPin ≠ b.EndPin)

/-- FWireId::IsPreviewConnector (header lines 40-43). -/
def FWireId.IsPreviewConnector (w : FWireId) : Bool :=
  w.StartPin.isNone || w.EndPin.isNone

/-- FWireId::GetConnectedPin (header lines 45-48). -/
def FWireId.GetConnectedPin (w : FWireId) : Option ℕ :=
  if w.StartPin.isNone then w.EndPin else w.StartPin

/-- Claim C10: FWireId::operator!= is not the logical negation of
operator==: it is true exactly when both the start pins and the end pins
differ, so two wire ids sharing exactly one pin make operator== and
operator!= both false, and there are ids where operator!= is not the
negation of operator==. -/
theorem wireId_ne_not_negation_of_eq :
    (∀ a b : FWireId,
      FWireId.opNe a b = true ↔ (a.StartPin ≠ b.StartPin ∧ a.EndPin ≠ b.EndPin)) ∧
    (∀ a b : FWireId,
      (a.StartPin = b.StartPin ∧ a.EndPin ≠ b.EndPin) ∨
        (a.StartPin ≠ b.StartPin ∧ a.EndPin = b.EndPin) →
      FWireId.opEq a b = false ∧ FWireId.opNe a b = false) ∧
    (∃ a b : FWireId, FWireId.opNe a b ≠ !(FWireId.opEq a b)) := by
  refine ⟨?_, ?_, ?_⟩
  · intro a b
    simp [FWireId.opNe]
  · intro a b h
    rcases h with ⟨h1, h2⟩ | ⟨h1, h2⟩ <;>
      simp [FWireId.opEq, FWireId.opNe, h1, h2]
  · exact ⟨⟨some 0, some 0⟩, ⟨some 0, some 1⟩, by decide⟩

/-- Body of the registry scan in
FWibblyConnectionDrawingPolicy::DrawConnection (cpp lines 224-243): skip
entries that are not preview connectors, skip entries whose connected pin is
neither of the new wire's associated pins, and adopt the entry's state when
its last recorded endpoints are both within 30 px (squared distance, strict)
of the new wire's endpoints. -/
noncomputable def inheritStep (AssociatedPin1 AssociatedPin2 : Option ℕ)
    (Start End0 : Vec2) (NewWireState : FWireState)
    (ExistingState : FWireId × FWireState) : FWireState :=
  if ExistingState.1.IsPreviewConnector = false then NewWireState
  else if ExistingState.1.GetConnectedPin ≠ AssociatedPin1 ∧
      ExistingState.1.GetConnectedPin ≠ AssociatedPin2 then NewWireState
  else if Vec2.distSquared ExistingState.2.LastStartPoint Start < 30 * 30 ∧
      Vec2.distSquared ExistingState.2.LastEndPoint End0 < 30 * 30 then
    ExistingState.2
  else NewWireState

/-- The registry scan of DrawConnection (cpp lines 224-243), folded over the
registry entries in iteration order starting from the freshly built state. -/
noncomputable def inheritFromPreview (Wires : List (FWireId × FWireState))
    (AssociatedPin1 AssociatedPin2 : Option ℕ) (Start End0 : Vec2)
    (NewWireState0 : FWireState) : FWireState :=
  Wires.foldl (inheritStep AssociatedPin1 AssociatedPin2 Start End0) NewWireState0

/-- Conditions under which the DrawConnection scan adopts an existing entry:
a preview connector whose connected pin is one of the new wire's pins and
whose last recorded endpoints are both within 30 px of the new endpoints. -/
def previewMatches (AssociatedPin1 AssociatedPin2 : Option ℕ)
    (Start End0 : Vec2) (e : FWireId × FWireState) : Prop :=
  e.1.IsPreviewConnector = true ∧
    (e.1.GetConnectedPin = AssociatedPin1 ∨ e.1.GetConnectedPin = AssociatedPin2) ∧
    Vec2.distSquared e.2.LastStartPoint Start < 30 * 30 ∧
    Vec2.distSquared e.2.LastEndPoint End0 < 30 * 30

theorem inheritStep_of_not_match (AssociatedPin1 AssociatedPin2 : Option ℕ)
    (Start End0 : Vec2) (x : FWireState) (e : FWireId × FWireState)
    (he : ¬ previewMatches AssociatedPin1 AssociatedPin2 Start End0 e) :
    inheritStep AssociatedPin1 AssociatedPin2 Start End0 x e = x := by
  unfold inheritStep
  split_ifs with h1 h2 h3
  · rfl
  · rfl
  · exfalso
    apply he
    refine ⟨?_, ?_, h3.1, h3.2⟩
    · cases hb : e.1.IsPreviewConnector
      · exact (h1 hb).elim
      · rfl
    · rcases not_and_or.1 h2 with hx | hx
      · exact Or.inl (not_not.1 hx)
      · exact Or.inr (not_not.1 hx)
  · rfl

theorem inheritStep_of_match (AssociatedPin1 AssociatedPin2 : Option ℕ)
    (Start End0 : Vec2) (x : FWireState) (e : FWireId × FWireState)
    (he : previewMatches AssociatedPin1 AssociatedPin2 Start End0 e) :
    inheritStep AssociatedPin1 AssociatedPin2 Start End0 x e = e.2 := by
  obtain ⟨h1, h2, h3, h4⟩ := he
  unfold inheritStep
  rw [if_neg (by simp [h1]), if_neg ?_, if_pos ⟨h3, h4⟩]
  rcases h2 with h2 | h2
  · exact fun hc => hc.1 h2
  · exact fun hc => hc.2 h2

theorem inheritFromPreview_of_no_match
    (AssociatedPin1 AssociatedPin2 : Option ℕ) (Start End0 : Vec2) :
    ∀ (Wires : List (FWireId × FWireState)) (init : FWireState),
      (∀ e ∈ Wires, ¬ previewMatches AssociatedPin1 AssociatedPin2 Start End0 e) →
      inheritFromPreview Wires AssociatedPin1 AssociatedPin2 Start End0 init
        = init := by
  intro Wires
  induction Wires with
  | nil => intro init _; rfl
  | cons e es ih =>
    intro init h
    unfold inheritFromPreview at ih ⊢
    rw [List.foldl_cons,
      inheritStep_of_not_match _ _ _ _ _ _ (h e (List.mem_cons_self e es))]
    exact ih init (fun x hx => h x (List.mem_cons_of_mem _ hx))

/-- Claim C4 (amended): when a wire identity is first seen, the freshly
randomized state is replaced by the state of a matching registry entry when
one exists, where matching requires not only a preview connector with last
endpoints within 30 px (squared distance) of the new wire's endpoints, but
also that the preview's connected pin is one of the new wire's two pins; the
adopted state is a matching entry's entire state. -/
theorem inheritFromPreview_adopts_matching_preview
    (Wires : List (FWireId × FWireState))
    (AssociatedPin1 AssociatedPin2 : Option ℕ) (Start End0 : Vec2)
    (NewWireState0 : FWireState)
    (hex : ∃ e ∈ Wires, previewMatches AssociatedPin1 AssociatedPin2 Start End0 e) :
    ∃ e ∈ Wires, previewMatches AssociatedPin1 AssociatedPin2 Start End0 e ∧
      inheritFromPreview Wires AssociatedPin1 AssociatedPin2 Start End0 NewWireState0
        = e.2 := by
  induction Wires using List.reverseRecOn generalizing NewWireState0 with
  | nil => exact absurd hex (by simp)
  | append_singleton l e ih =>
    by_cases hm : previewMatches AssociatedPin1 AssociatedPin2 Start End0 e
    · refine ⟨e, by simp, hm, ?_⟩
      unfold inheritFromPreview
      rw [List.foldl_append, List.foldl_cons, List.foldl_nil,
        inheritStep_of_match _ _ _ _ _ _ hm]
    · have hex2 : ∃ x ∈ l, previewMatches AssociatedPin1 AssociatedPin2 Start End0 x := by
        rcases hex with ⟨x, hxmem, hxm⟩
        rcases List.mem_append.1 hxmem with hxl | hxe
        · exact ⟨x, hxl, hxm⟩
        · rw [List.mem_singleton.1 hxe] at hxm
          exact absurd hxm hm
      rcases ih NewWireState0 hex2 with ⟨x, hxmem, hxm, hres⟩
      refine ⟨x, List.mem_append.2 (Or.inl hxmem), hxm, ?_⟩
      unfold inheritFromPreview at hres ⊢
      rw [List.foldl_append, List.foldl_cons, List.foldl_nil,
        inheritStep_of_not_match _ _ _ _ _ _ hm, hres]

/-- Registry entry id for the C4 counterexample: a preview connector whose
connected pin is pin 3. -/
def cexPreviewId : FWireId := ⟨some 3, none⟩

/-- Registry entry state for the C4 counterexample and witness: its last
recorded endpoints are exactly the new wire's endpoints. -/
def cexPreviewState : FWireState :=
  { DesiredRopeLength := 1
    LerpedRopeLength := 1
    DesiredRopeCenterPoint := ⟨0, 0⟩
    SpringCenterPoint := ⟨⟨0, 0⟩, ⟨0, 0⟩, 0, 0⟩
    DesiredSlackMultiplier := 1
    LastStartPoint := ⟨0, 0⟩
    LastEndPoint := ⟨100, 0⟩
    Color := ⟨0, 0, 0, 0⟩ }

/-- Freshly randomized state for the C4 counterexample, distinguishable from
the preview entry's state by its LerpedRopeLength. -/
def cexFreshState : FWireState :=
  { DesiredRopeLength := 2
    LerpedRopeLength := 2
    DesiredRopeCenterPoint := ⟨0, 0⟩
    SpringCenterPoint := ⟨⟨0, 0⟩, ⟨0, 0⟩, 0, 0⟩
    DesiredSlackMultiplier := 2
    LastStartPoint := ⟨0, 0⟩
    LastEndPoint := ⟨100, 0⟩
    Color := ⟨0, 0, 0, 0⟩ }

/-- Claim C4 counterexample: the registry holds one preview-connector entry
whose last endpoints coincide with the new wire's endpoints (squared
distances 0 < 900), yet because its connected pin (3) is neither of the new
wire's pins (1 and 2), DrawConnection keeps the freshly built state instead
of adopting the entry's state as the claim asserts. -/
theorem inheritFromPreview_ignores_unrelated_preview_cex :
    cexPreviewId.IsPreviewConnector = true ∧
    Vec2.distSquared cexPreviewState.LastStartPoint ⟨0, 0⟩ < 30 * 30 ∧
    Vec2.distSquared cexPreviewState.LastEndPoint ⟨100, 0⟩ < 30 * 30 ∧
    inheritFromPreview [(cexPreviewId, cexPreviewState)] (some 1) (some 2)
        ⟨0, 0⟩ ⟨100, 0⟩ cexFreshState = cexFreshState ∧
    cexFreshState ≠ cexPreviewState := by
  refine ⟨rfl, ?_, ?_, ?_, ?_⟩
  · norm_num [Vec2.distSquared, cexPreviewState]
  · norm_num [Vec2.distSquared, cexPreviewState]
  · unfold inheritFromPreview
    rw [List.foldl_cons, List.foldl_nil]
    unfold inheritStep
    rw [if_neg (by simp [cexPreviewId, FWireId.IsPreviewConnector])]
    rw [if_pos]
    constructor <;> simp [cexPreviewId, FWireId.GetConnectedPin]
  · intro h
    have hl := congrArg FWireState.LerpedRopeLength h
    norm_num [cexFreshState, cexPreviewState] at hl

/-- Registry entry id for the C4 witness: a preview connector whose connected
pin is pin 1, one of the new wire's pins. -/
def witPreviewId : FWireId := ⟨some 1, none⟩

/-- Witness for claim C4 (amended): a singleton registry whose preview entry
shares pin 1 with the new wire and sits within 30 px of its endpoints; the
theorem applied there produces a matching entry whose state is adopted. -/
theorem inheritFromPreview_adopts_matching_preview_witness :
    (∃ e ∈ [(witPreviewId, cexPreviewState)],
      previewMatches (some 1) (some 2) ⟨0, 0⟩ ⟨100, 0⟩ e) ∧
    ∃ e ∈ [(witPreviewId, cexPreviewState)],
      previewMatches (some 1) (some 2) ⟨0, 0⟩ ⟨100, 0⟩ e ∧
      inheritFromPreview [(witPreviewId, cexPreviewState)] (some 1) (some 2)
          ⟨0, 0⟩ ⟨100, 0⟩ cexFreshState = e.2 := by
  have hm : previewMatches (some 1) (some 2) ⟨0, 0⟩ ⟨100, 0⟩
      (witPreviewId, cexPreviewState) := by
    refine ⟨rfl, Or.inl rfl, ?_, ?_⟩ <;>
      norm_num [Vec2.distSquared, cexPreviewState]
  have hex : ∃ e ∈ [(witPreviewId, cexPreviewState)],
      previewMatches (some 1) (some 2) ⟨0, 0⟩ ⟨100, 0⟩ e :=
    ⟨(witPreviewId, cexPreviewState), List.mem_cons_self _ _, hm⟩
  exact ⟨hex,
    inheritFromPreview_adopts_matching_preview [(witPreviewId, cexPreviewState)]
      (some 1) (some 2) ⟨0, 0⟩ ⟨100, 0⟩ cexFreshState hex⟩
